import Mathlib

/-!
Shallow embedding of `src/bot.py` (a vocabulary-delivery bot) and proofs
about its user registry, persistence helpers, corpus replenishment and
scheduler wiring.

Modelling conventions:
* Python dicts keyed by strings become association lists
  `List (String × _)` with first-match lookup (dict insertion appends a
  fresh key at the end, which preserves first-match semantics because the
  key was absent).
* The file system is a map from path to `FileContent`
  (absent / corrupt / a parsed JSON value); exceptions are modelled with
  `Except`, and the `try/except` blocks of the source become explicit
  handlers that turn an `Except.error` into the source's fallback value.
* Network enrichment (`aiohttp` GET + `googletrans`) is an oracle
  `String → FetchResult`: the call can raise (`conn_error`), return a
  non-200 status (`not_ok`), or succeed with optional definition and
  translation (`ok`), the inner `try/except` blocks of the source mapping
  a missing sub-result to `none`.
* `random.shuffle` is an arbitrary function `List String → List String`
  constrained, where a property needs it, to produce a permutation of its
  input.
-/

namespace Bot

/-- JSON-ish values stored by `load_json` / `save_json` (`users.json` holds
an object, `words.json` an array; leaves are opaque-to-the-claims
primitives). -/
inductive Json where
  | obj : List (String × Json) → Json
  | arr : List Json → Json
  | str : String → Json
  | num : Int → Json
  | boolean : Bool → Json
  | null : Json

/-- `USERS_FILE = "users.json"` (bot.py line 41). -/
def USERS_FILE : String := "users.json"

/-- `WORDS_FILE = "words.json"` (bot.py line 42). -/
def WORDS_FILE : String := "words.json"

/-- State of one path on disk: missing, present but unparsable, or a
parsed JSON value. -/
inductive FileContent where
  | absent : FileContent
  | corrupt : FileContent
  | valid : Json → FileContent

/-- The fallback value of `load_json`: `{} if path == USERS_FILE else []`
(bot.py lines 60 and 65). -/
def loadDefault (path : String) : Json :=
  if path = USERS_FILE then Json.obj [] else Json.arr []

/-- Body of the `try` block of `load_json` (bot.py lines 58-62): an absent
file returns the default, a corrupt file makes `json.load` raise. -/
def load_json_body (path : String) (fc : FileContent) : Except String Json :=
  match fc with
  | FileContent.absent => Except.ok (loadDefault path)
  | FileContent.corrupt => Except.error "json.load raised"
  | FileContent.valid v => Except.ok v

/-- `load_json` (bot.py lines 57-65): the `except` clause logs and returns
the typed empty default, so the caller never sees a failure. -/
def load_json (path : String) (fc : FileContent) : Json :=
  match load_json_body path fc with
  | Except.ok v => v
  | Except.error _ => loadDefault path

/-- A file system assigning content to every path. -/
abbrev Fs : Type := String → FileContent

/-- Body of the `try` block of `save_json` (bot.py lines 68-70): the write
either succeeds, replacing the file wholesale, or raises. `writeOk` is the
oracle for whether the I/O succeeds. -/
def save_json_body (fs : Fs) (path : String) (v : Json) (writeOk : Bool) :
    Except String Fs :=
  if writeOk then
    Except.ok (fun p => if p = path then FileContent.valid v else fs p)
  else
    Except.error "write raised"

/-- `save_json` (bot.py lines 67-72): a failed write is logged and
swallowed, leaving the disk state unchanged; nothing is raised. -/
def save_json (fs : Fs) (path : String) (v : Json) (writeOk : Bool) : Fs :=
  match save_json_body fs path v writeOk with
  | Except.ok fs2 => fs2
  | Except.error _ => fs

/-- One user profile record, fields exactly as built by `ensure_user`
(bot.py lines 97-107). -/
structure UserProfile where
  username : String
  level : String
  words_per_day : Nat
  time : String
  is_premium : Bool
  learned_words : List String
  translations_today : Nat
  target_lang : String
  pending_premium : Bool
deriving DecidableEq, Repr

/-- The users collection: a JSON object keyed by `str(user_id)`. -/
abbrev Users : Type := List (String × UserProfile)

/-- Python `uid in users` / `users[uid]` on the users dict: first-match
lookup in the association list. -/
def findUser (users : Users) (uid : String) : Option UserProfile :=
  match users with
  | [] => none
  | (k, v) :: rest => if k = uid then some v else findUser rest uid

/-- The record literal of bot.py lines 97-107: every default the new
profile gets (`username or ""` maps a missing hint to the empty string). -/
def defaultProfile (username : Option String) : UserProfile :=
  { username := username.getD ""
    level := "Beginner"
    words_per_day := 5
    time := "09:00"
    is_premium := false
    learned_words := []
    translations_today := 0
    target_lang := "ru"
    pending_premium := false }

/-- `ensure_user` (bot.py lines 93-109) acting on the loaded users
collection. Returns the profile handed back to the caller, the resulting
stored collection, and whether `save_users` was called. -/
def ensure_user (users : Users) (user_id : Int) (username : Option String) :
    UserProfile × Users × Bool :=
  let uid := toString user_id
  match findUser users uid with
  | some p => (p, users, false)
  | none =>
      let p := defaultProfile username
      (p, users ++ [(uid, p)], true)

/-- `SAMPLE_WORDS_POOL` (bot.py lines 112-116): the fixed 30-word seed
vocabulary. -/
def SAMPLE_WORDS_POOL : List String :=
  ["apple","book","computer","school","water","friend","language","beautiful","music","travel",
   "work","future","happiness","family","dream","power","light","energy","nature","health",
   "success","challenge","brave","kind","learn","practice","study","create","build","improve"]

/-- One stored vocabulary item, fields as built at bot.py line 133 / 165. -/
structure WordItem where
  word : String
  translation : String
  definition : String
  level : String
deriving DecidableEq, Repr

/-- Outcome of one enrichment attempt for a word: the HTTP GET raised,
returned a non-200 status, or succeeded with the optional definition
extracted from the body and the optional translation (each `none` when the
corresponding inner `try` failed). -/
inductive FetchResult where
  | conn_error : FetchResult
  | not_ok : FetchResult
  | ok : Option String → Option String → FetchResult
deriving DecidableEq, Repr

/-- The item built from a successful enrichment of `w` (bot.py lines
156-165): a missing definition or translation becomes `""`. -/
def mkWordItem (w : String) (df tr : Option String) : WordItem :=
  { word := w
    translation := tr.getD ""
    definition := df.getD ""
    level := "Beginner" }

/-- `fetch_word_info` (bot.py lines 118-136): `None` unless the GET
succeeds with status 200, otherwise the enriched record with empty strings
for missing sub-results. The oracle `fetch` stands for the network. -/
def fetch_word_info (fetch : String → FetchResult) (word : String)
    (_target_lang : String) : Option WordItem :=
  match fetch word with
  | FetchResult.ok df tr => some (mkWordItem word df tr)
  | FetchResult.conn_error => none
  | FetchResult.not_ok => none

/-- Python `pool * n`: `n` concatenated copies of the list. -/
def pyListMul (l : List String) : Nat → List String
  | 0 => []
  | n + 1 => l ++ pyListMul l n

/-- The `for w in candidates` loop of `ensure_words` (bot.py lines
148-167). Carries the batch `new_added` and, for audit of the claims, the
trace `att` of words for which an enrichment request was issued.
Returns the final batch and the trace. -/
def ensure_words_go (fetch : String → FetchResult) (words : List WordItem)
    (needed : Nat) :
    List String → List WordItem → List String → List WordItem × List String
  | [], acc, att => (acc, att)
  | w :: rest, acc, att =>
    if needed ≤ acc.length then (acc, att)
    else if words.any (fun item => item.word = w)
        || acc.any (fun item => item.word = w) then
      ensure_words_go fetch words needed rest acc att
    else
      match fetch w with
      | FetchResult.ok df tr =>
          ensure_words_go fetch words needed rest
            (acc ++ [mkWordItem w df tr]) (att ++ [w])
      | FetchResult.conn_error =>
          ensure_words_go fetch words needed rest acc (att ++ [w])
      | FetchResult.not_ok =>
          ensure_words_go fetch words needed rest acc (att ++ [w])

/-- Result of one `ensure_words` run: the stored corpus afterwards,
whether `save_words` ran, and the trace of enrichment attempts. -/
structure EnsureWordsResult where
  words : List WordItem
  saved : Bool
  attempts : List String
deriving DecidableEq, Repr

/-- `ensure_words` (bot.py lines 138-171). `shuffle` models
`random.shuffle`; `fetch` models the network; `words` is the stored corpus
`get_words()` returned; `min_total` is the argument (200 at call sites). -/
def ensure_words (fetch : String → FetchResult)
    (shuffle : List String → List String) (words : List WordItem)
    (min_total : Nat) : EnsureWordsResult :=
  if min_total ≤ words.length then
    { words := words, saved := false, attempts := [] }
  else
    let needed := max (min_total - words.length) 50
    let candidates :=
      shuffle (pyListMul SAMPLE_WORDS_POOL
        (needed / SAMPLE_WORDS_POOL.length + 2))
    let run := ensure_words_go fetch words needed candidates [] []
    if run.1.isEmpty then
      { words := words, saved := false, attempts := run.2 }
    else
      { words := words ++ run.1, saved := true, attempts := run.2 }

/-- `app.job_queue.run_repeating(check_and_send, interval=60, first=10)`
(bot.py line 212): the delivery tick interval. -/
def delivery_tick_interval : Nat := 60

/-- A wall-clock time of day, as `datetime.time(hour, minute, second)`. -/
structure TimeOfDay where
  hour : Nat
  minute : Nat
  second : Nat
deriving DecidableEq, Repr

/-- `midnight = datetime.time(hour=0, minute=0, second=0)` (bot.py line
213): when `run_daily(reset_translations, ...)` fires. -/
def midnight : TimeOfDay := { hour := 0, minute := 0, second := 0 }

/-- Modelled from the spec: the body of the `reset_translations` job is
elided from src/bot.py (only its `run_daily` registration at line 214 is
present). Per the spec it "sets `translationsToday = 0` for every
user". -/
def reset_translations (users : Users) : Users :=
  users.map (fun e => (e.1, { e.2 with translations_today := 0 }))

/-- Modelled from the spec: the only other writer of the quota counter —
the translation path, elided from src/bot.py — increments
`translationsToday` after a successful translation; "all other writers
only increment it". -/
def increment_translations (p : UserProfile) : UserProfile :=
  { p with translations_today := p.translations_today + 1 }

/-- Corpus states reachable by the program: `words.json` starts absent
(so `get_words` yields `[]`), and only `ensure_words` runs mutate it;
`random.shuffle` permutes its input. -/
inductive ReachableCorpus : List WordItem → Prop where
  | init : ReachableCorpus []
  | step : ∀ (fetch : String → FetchResult)
      (shuffle : List String → List String) (ws : List WordItem) (mt : Nat),
      (∀ l, List.Perm (shuffle l) l) → ReachableCorpus ws →
      ReachableCorpus (ensure_words fetch shuffle ws mt).words

/-- A concrete enrichment oracle used on concrete runs: the word
`"apple"` always fails with a connection error, every other word enriches
with definition `"d"` and translation `"t"`. -/
def fetchAppleFails : String → FetchResult :=
  fun w =>
    if w = "apple" then FetchResult.conn_error
    else FetchResult.ok (some "d") (some "t")

/- ------------------------------------------------------------------ -/
/- Helper lemmas                                                       -/
/- ------------------------------------------------------------------ -/

theorem findUser_append_self (users : Users) (uid : String) (p : UserProfile)
    (h : findUser users uid = none) :
    findUser (users ++ [(uid, p)]) uid = some p := by
  induction users with
  | nil => simp [findUser]
  | cons e rest ih =>
      rw [findUser] at h
      by_cases hk : e.1 = uid
      · simp [hk] at h
      · simpa [findUser, hk] using ih (by simpa [hk] using h)

theorem mem_pyListMul (l : List String) :
    ∀ (n : Nat) (x : String), x ∈ pyListMul l n → x ∈ l := by
  intro n
  induction n with
  | zero => intro x hx; simp [pyListMul] at hx
  | succ m ih =>
      intro x hx
      rcases List.mem_append.1 (by simpa [pyListMul] using hx) with h | h
      · exact h
      · exact ih x h

theorem ensure_words_go_length_le (fetch : String → FetchResult)
    (words : List WordItem) (needed : Nat) :
    ∀ (cs : List String) (acc : List WordItem) (att : List String),
      acc.length ≤ needed →
      (ensure_words_go fetch words needed cs acc att).1.length ≤ needed := by
  intro cs
  induction cs with
  | nil => intro acc att h; simpa [ensure_words_go] using h
  | cons w rest ih =>
      intro acc att h
      by_cases hb : needed ≤ acc.length
      · simpa [ensure_words_go, hb] using h
      · by_cases hd : (words.any (fun item => item.word = w)
            || acc.any (fun item => item.word = w)) = true
        · simpa [ensure_words_go, hb, hd] using ih acc att h
        · cases hf : fetch w with
          | ok df tr =>
              have hlt : acc.length < needed := Nat.lt_of_not_le hb
              have hlen : (acc ++ [mkWordItem w df tr]).length ≤ needed := by
                simpa using hlt
              simpa [ensure_words_go, hb, hd, hf] using
                ih (acc ++ [mkWordItem w df tr]) (att ++ [w]) hlen
          | conn_error =>
              simpa [ensure_words_go, hb, hd, hf] using ih acc (att ++ [w]) h
          | not_ok =>
              simpa [ensure_words_go, hb, hd, hf] using ih acc (att ++ [w]) h

theorem ensure_words_go_nodup_aux (fetch : String → FetchResult)
    (words : List WordItem) (needed : Nat) :
    ∀ (cs : List String) (acc : List WordItem) (att : List String),
      ((words ++ acc).map WordItem.word).Nodup →
      ((words ++ (ensure_words_go fetch words needed cs acc att).1).map
          WordItem.word).Nodup := by
  intro cs
  induction cs with
  | nil => intro acc att h; simpa [ensure_words_go] using h
  | cons w rest ih =>
      intro acc att h
      by_cases hb : needed ≤ acc.length
      · simpa [ensure_words_go, hb] using h
      · by_cases hd : (words.any (fun item => item.word = w)
            || acc.any (fun item => item.word = w)) = true
        · simpa [ensure_words_go, hb, hd] using ih acc att h
        · cases hf : fetch w with
          | ok df tr =>
              have hnm : w ∉ (words ++ acc).map WordItem.word := by
                intro hmem
                rcases List.mem_map.1 hmem with ⟨i, hi, hiw⟩
                apply hd
                simp only [Bool.or_eq_true, List.any_eq_true,
                  decide_eq_true_eq]
                rcases List.mem_append.1 hi with hi1 | hi2
                · exact Or.inl ⟨i, hi1, hiw⟩
                · exact Or.inr ⟨i, hi2, hiw⟩
              have h2 : ((words ++ (acc ++ [mkWordItem w df tr])).map
                  WordItem.word).Nodup := by
                rw [← List.append_assoc, List.map_append]
                refine List.Nodup.append h ?_ ?_
                · simp
                · intro a ha hb2
                  have haw : a = w := by
                    simpa [mkWordItem] using hb2
                  exact hnm (haw ▸ ha)
              simpa [ensure_words_go, hb, hd, hf] using
                ih (acc ++ [mkWordItem w df tr]) (att ++ [w]) h2
          | conn_error =>
              simpa [ensure_words_go, hb, hd, hf] using ih acc (att ++ [w]) h
          | not_ok =>
              simpa [ensure_words_go, hb, hd, hf] using ih acc (att ++ [w]) h

theorem ensure_words_go_mem_aux (fetch : String → FetchResult)
    (words : List WordItem) (needed : Nat) :
    ∀ (cs : List String) (acc : List WordItem) (att : List String),
      ∀ i ∈ (ensure_words_go fetch words needed cs acc att).1,
        i ∈ acc ∨ ∃ df tr, fetch i.word = FetchResult.ok df tr ∧
          i = mkWordItem i.word df tr ∧ i.word ∈ cs := by
  intro cs
  induction cs with
  | nil =>
      intro acc att i hi
      left
      simpa [ensure_words_go] using hi
  | cons w rest ih =>
      intro acc att i hi
      by_cases hb : needed ≤ acc.length
      · left
        simpa [ensure_words_go, hb] using hi
      · by_cases hd : (words.any (fun item => item.word = w)
            || acc.any (fun item => item.word = w)) = true
        · rcases ih acc att i
              (by simpa [ensure_words_go, hb, hd] using hi) with
            hcase | ⟨df, tr, h1, h2, h3⟩
          · exact Or.inl hcase
          · exact Or.inr ⟨df, tr, h1, h2, List.mem_cons_of_mem _ h3⟩
        · cases hf : fetch w with
          | ok df tr =>
              rcases ih (acc ++ [mkWordItem w df tr]) (att ++ [w]) i
                  (by simpa [ensure_words_go, hb, hd, hf] using hi) with
                hcase | ⟨df2, tr2, h1, h2, h3⟩
              · rcases List.mem_append.1 hcase with hc1 | hc2
                · exact Or.inl hc1
                · have heq : i = mkWordItem w df tr := by simpa using hc2
                  subst heq
                  exact Or.inr ⟨df, tr, hf, rfl, List.mem_cons_self _ _⟩
              · exact Or.inr ⟨df2, tr2, h1, h2, List.mem_cons_of_mem _ h3⟩
          | conn_error =>
              rcases ih acc (att ++ [w]) i
                  (by simpa [ensure_words_go, hb, hd, hf] using hi) with
                hcase | ⟨df2, tr2, h1, h2, h3⟩
              · exact Or.inl hcase
              · exact Or.inr ⟨df2, tr2, h1, h2, List.mem_cons_of_mem _ h3⟩
          | not_ok =>
              rcases ih acc (att ++ [w]) i
                  (by simpa [ensure_words_go, hb, hd, hf] using hi) with
                hcase | ⟨df2, tr2, h1, h2, h3⟩
              · exact Or.inl hcase
              · exact Or.inr ⟨df2, tr2, h1, h2, List.mem_cons_of_mem _ h3⟩

theorem ensure_words_go_all_present (fetch : String → FetchResult)
    (words : List WordItem) (needed : Nat) :
    ∀ (cs : List String) (acc : List WordItem) (att : List String),
      (∀ w ∈ cs, words.any (fun item => item.word = w) = true) →
      ensure_words_go fetch words needed cs acc att = (acc, att) := by
  intro cs
  induction cs with
  | nil => intro acc att _; simp [ensure_words_go]
  | cons w rest ih =>
      intro acc att h
      by_cases hb : needed ≤ acc.length
      · simp [ensure_words_go, hb]
      · have hw : (words.any (fun item => item.word = w)
            || acc.any (fun item => item.word = w)) = true := by
          simp [h w (List.mem_cons_self w rest)]
        simp [ensure_words_go, hb, hw,
          ih acc att (fun x hx => h x (List.mem_cons_of_mem _ hx))]

theorem ensure_words_words_eq (fetch : String → FetchResult)
    (shuffle : List String → List String) (words : List WordItem)
    (min_total : Nat) :
    (ensure_words fetch shuffle words min_total).words = words ∨
    ∃ needed cs, needed = max (min_total - words.length) 50 ∧
      cs = shuffle (pyListMul SAMPLE_WORDS_POOL
        (needed / SAMPLE_WORDS_POOL.length + 2)) ∧
      (ensure_words fetch shuffle words min_total).words =
        words ++ (ensure_words_go fetch words needed cs [] []).1 := by
  by_cases hg : min_total ≤ words.length
  · left
    simp [ensure_words, hg]
  · by_cases he : (ensure_words_go fetch words
        (max (min_total - words.length) 50)
        (shuffle (pyListMul SAMPLE_WORDS_POOL
          (max (min_total - words.length) 50 / SAMPLE_WORDS_POOL.length + 2)))
        [] []).1.isEmpty = true
    · left
      simp [ensure_words, hg, he]
    · right
      exact ⟨_, _, rfl, rfl, by simp [ensure_words, hg, he]⟩

theorem ensure_words_saturated (fetch : String → FetchResult)
    (shuffle : List String → List String) (ws : List WordItem) (mt : Nat)
    (hsh : ∀ l, List.Perm (shuffle l) l)
    (hfull : ∀ w ∈ SAMPLE_WORDS_POOL, ∃ i ∈ ws, i.word = w) :
    ensure_words fetch shuffle ws mt =
      { words := ws, saved := false, attempts := [] } := by
  by_cases hg : mt ≤ ws.length
  · simp [ensure_words, hg]
  · have hall : ∀ w ∈ shuffle (pyListMul SAMPLE_WORDS_POOL
        (max (mt - ws.length) 50 / SAMPLE_WORDS_POOL.length + 2)),
        ws.any (fun item => item.word = w) = true := by
      intro w hw
      have hw2 : w ∈ SAMPLE_WORDS_POOL :=
        mem_pyListMul _ _ w (((hsh _).mem_iff).1 hw)
      rcases hfull w hw2 with ⟨i, hi, hiw⟩
      exact List.any_eq_true.2 ⟨i, hi, by simp [hiw]⟩
    simp [ensure_words, hg,
      ensure_words_go_all_present fetch ws _ _ [] [] hall]

theorem ensure_words_good (fetch : String → FetchResult)
    (shuffle : List String → List String) (words : List WordItem)
    (mt : Nat) (hsh : ∀ l, List.Perm (shuffle l) l)
    (hnd : (words.map WordItem.word).Nodup)
    (hpool : ∀ i ∈ words, i.word ∈ SAMPLE_WORDS_POOL) :
    (((ensure_words fetch shuffle words mt).words).map WordItem.word).Nodup ∧
    ∀ i ∈ (ensure_words fetch shuffle words mt).words,
      i.word ∈ SAMPLE_WORDS_POOL := by
  rcases ensure_words_words_eq fetch shuffle words mt with
    h1 | ⟨needed, cs, _, hc, h2⟩
  · rw [h1]
    exact ⟨hnd, hpool⟩
  · constructor
    · rw [h2]
      exact ensure_words_go_nodup_aux fetch words needed cs [] []
        (by simpa using hnd)
    · intro i hi
      rw [h2] at hi
      rcases List.mem_append.1 hi with hi1 | hi2
      · exact hpool i hi1
      · rcases ensure_words_go_mem_aux fetch words needed cs [] [] i hi2 with
          hc0 | ⟨df, tr, _, _, h3⟩
        · simp at hc0
        · rw [hc] at h3
          exact mem_pyListMul _ _ _ (((hsh _).mem_iff).1 h3)

theorem reachable_corpus_good (ws : List WordItem)
    (h : ReachableCorpus ws) :
    (ws.map WordItem.word).Nodup ∧
    ∀ i ∈ ws, i.word ∈ SAMPLE_WORDS_POOL := by
  induction h with
  | init => simp
  | step fetch shuffle ws0 mt hsh hr ih =>
      exact ensure_words_good fetch shuffle ws0 mt hsh ih.1 ih.2

/- ------------------------------------------------------------------ -/
/- Claim theorems                                                      -/
/- ------------------------------------------------------------------ -/

/-- C1: `ensure_user` is idempotent — a second call with the same
identifier (whatever the new display-name hint) returns the profile the
first call left in the store, leaves the stored collection unchanged, and
performs no save. -/
theorem ensure_user_idempotent (users : Users) (user_id : Int)
    (u1 u2 : Option String) :
    ensure_user (ensure_user users user_id u1).2.1 user_id u2 =
      ((ensure_user users user_id u1).1,
       (ensure_user users user_id u1).2.1, false) := by
  cases h : findUser users (toString user_id) with
  | some p => simp [ensure_user, h]
  | none =>
      simp [ensure_user, h,
        findUser_append_self users (toString user_id)
          (defaultProfile u1) h]

/-- C5: for an identifier not yet present, `ensure_user` builds the
profile with exactly the documented defaults — level Beginner, 5 words
per day, delivery time 09:00, target language "ru", not premium, no
pending premium, zero translations today, no learned words — and saves
the enlarged collection immediately. -/
theorem ensure_user_creates_defaults (users : Users) (user_id : Int)
    (username : Option String)
    (h : findUser users (toString user_id) = none) :
    ensure_user users user_id username =
      (defaultProfile username,
       users ++ [(toString user_id, defaultProfile username)], true) ∧
    (defaultProfile username).level = "Beginner" ∧
    (defaultProfile username).words_per_day = 5 ∧
    (defaultProfile username).time = "09:00" ∧
    (defaultProfile username).target_lang = "ru" ∧
    (defaultProfile username).is_premium = false ∧
    (defaultProfile username).pending_premium = false ∧
    (defaultProfile username).translations_today = 0 ∧
    (defaultProfile username).learned_words = [] := by
  refine ⟨?_, rfl, rfl, rfl, rfl, rfl, rfl, rfl, rfl⟩
  simp [ensure_user, h]

/-- C5 witness: creating user 42 in the empty store. -/
theorem ensure_user_creates_defaults_witness :
    ensure_user [] 42 (some "alice") =
      (defaultProfile (some "alice"),
       [((42 : Int).repr, defaultProfile (some "alice"))], true) ∧
    (defaultProfile (some "alice")).level = "Beginner" ∧
    (defaultProfile (some "alice")).words_per_day = 5 ∧
    (defaultProfile (some "alice")).time = "09:00" ∧
    (defaultProfile (some "alice")).target_lang = "ru" ∧
    (defaultProfile (some "alice")).is_premium = false ∧
    (defaultProfile (some "alice")).pending_premium = false ∧
    (defaultProfile (some "alice")).translations_today = 0 ∧
    (defaultProfile (some "alice")).learned_words = [] := by
  simpa using ensure_user_creates_defaults [] 42 (some "alice") rfl

/-- C7: when the stored corpus already has at least `min_total` items,
`ensure_words` changes nothing, saves nothing, and attempts no
enrichment. -/
theorem ensure_words_noop_when_full (fetch : String → FetchResult)
    (shuffle : List String → List String) (words : List WordItem)
    (min_total : Nat) (h : min_total ≤ words.length) :
    ensure_words fetch shuffle words min_total =
      { words := words, saved := false, attempts := [] } := by
  simp [ensure_words, h]

/-- C7 witness: a one-item corpus already meets a minimum of one. -/
theorem ensure_words_noop_when_full_witness :
    ensure_words (fun _ => FetchResult.conn_error) (fun l => l)
        [mkWordItem "apple" (some "d") (some "t")] 1 =
      { words := [mkWordItem "apple" (some "d") (some "t")],
        saved := false, attempts := [] } :=
  ensure_words_noop_when_full _ _ _ 1 (by decide)

/-- C9: storage failures are never surfaced — loading an absent or
corrupt file yields the typed empty default (empty object for the users
collection, empty array for the words collection), and a failed save is
swallowed, leaving the previous disk state in place instead of raising. -/
theorem storage_failures_swallowed :
    load_json USERS_FILE FileContent.absent = Json.obj [] ∧
    load_json USERS_FILE FileContent.corrupt = Json.obj [] ∧
    load_json WORDS_FILE FileContent.absent = Json.arr [] ∧
    load_json WORDS_FILE FileContent.corrupt = Json.arr [] ∧
    (∀ (fs : Fs) (path : String) (v : Json),
      save_json fs path v false = fs) :=
  ⟨rfl, rfl, rfl, rfl, fun _ _ _ => rfl⟩

/-- C10: the delivery tick is registered at a fixed 60-unit interval and
the daily reset at 00:00; the (spec-modelled) daily reset zeroes
`translations_today` for every user while keeping the user set, and the
only other (spec-modelled) quota writer strictly increments the counter,
so it never zeroes it. -/
theorem scheduler_reset_zeroes_quota :
    delivery_tick_interval = 60 ∧
    midnight = { hour := 0, minute := 0, second := 0 } ∧
    (∀ users : Users,
      (reset_translations users).map (fun e => e.2.translations_today) =
        users.map (fun _ => 0)) ∧
    (∀ users : Users,
      (reset_translations users).map (fun e => e.1) =
        users.map (fun e => e.1)) ∧
    (∀ p : UserProfile,
      (increment_translations p).translations_today =
        p.translations_today + 1) ∧
    (∀ p : UserProfile,
      (increment_translations p).translations_today ≠ 0) := by
  refine ⟨rfl, rfl, ?_, ?_, fun p => rfl, fun p => Nat.succ_ne_zero _⟩ <;>
    intro users <;>
    simp only [reset_translations, List.map_map] <;> rfl

/-- C2: a run of `ensure_words` on a corpus with pairwise-distinct word
keys leaves a corpus with pairwise-distinct word keys — each candidate is
checked against both the stored corpus and the batch built in the same
call. -/
theorem ensure_words_preserves_nodup (fetch : String → FetchResult)
    (shuffle : List String → List String) (words : List WordItem)
    (min_total : Nat) (h : (words.map WordItem.word).Nodup) :
    (((ensure_words fetch shuffle words min_total).words).map
        WordItem.word).Nodup := by
  rcases ensure_words_words_eq fetch shuffle words min_total with
    h1 | ⟨needed, cs, _, _, h2⟩
  · rw [h1]
    exact h
  · rw [h2]
    exact ensure_words_go_nodup_aux fetch words needed cs [] []
      (by simpa using h)

/-- C2 witness: replenishing the empty corpus keeps the word keys
pairwise distinct. -/
theorem ensure_words_preserves_nodup_witness :
    (((ensure_words (fun _ => FetchResult.ok none none) (fun l => l)
        [] 1).words).map WordItem.word).Nodup :=
  ensure_words_preserves_nodup _ _ [] 1 (by simp)

/-- C3 counterexample: with the oracle that always fails on `"apple"`,
one `ensure_words` run on the empty corpus issues three enrichment
requests for `"apple"` — the failed candidate IS retried within the same
call, because the candidate list is the seed pool repeated and the
dedup check only consults stored and successfully added words. -/
theorem ensure_words_failed_retried_cex :
    fetchAppleFails "apple" = FetchResult.conn_error ∧
    (ensure_words fetchAppleFails (fun l => l) [] 1).attempts.count
        "apple" = 3 ∧
    ¬ ((ensure_words fetchAppleFails (fun l => l) [] 1).attempts.count
        "apple" ≤ 1) := by
  refine ⟨rfl, by decide, ?_⟩
  intro hle
  have h3 : (ensure_words fetchAppleFails (fun l => l) [] 1).attempts.count
      "apple" = 3 := by decide
  rw [h3] at hle
  omega

/-- C3 amended: a candidate whose enrichment fails contributes no corpus
entry at all — every stored item either predates the run or is the fully
keyed record of a successfully enriched word — though a failed word may
be attempted again when it reappears in the repeated candidate list. -/
theorem ensure_words_failures_add_nothing (fetch : String → FetchResult)
    (shuffle : List String → List String) (words : List WordItem)
    (min_total : Nat) :
    (∀ i ∈ (ensure_words fetch shuffle words min_total).words,
      i ∈ words ∨ ∃ df tr, fetch i.word = FetchResult.ok df tr ∧
        i = mkWordItem i.word df tr) ∧
    (∀ w : String,
      (fetch w = FetchResult.conn_error ∨ fetch w = FetchResult.not_ok) →
      (∀ i ∈ words, i.word ≠ w) →
      ∀ i ∈ (ensure_words fetch shuffle words min_total).words,
        i.word ≠ w) := by
  have hmain : ∀ i ∈ (ensure_words fetch shuffle words min_total).words,
      i ∈ words ∨ ∃ df tr, fetch i.word = FetchResult.ok df tr ∧
        i = mkWordItem i.word df tr := by
    intro i hi
    rcases ensure_words_words_eq fetch shuffle words min_total with
      h1 | ⟨needed, cs, _, _, h2⟩
    · rw [h1] at hi
      exact Or.inl hi
    · rw [h2] at hi
      rcases List.mem_append.1 hi with hi1 | hi2
      · exact Or.inl hi1
      · rcases ensure_words_go_mem_aux fetch words needed cs [] [] i hi2
          with hc0 | ⟨df, tr, h3, h4, _⟩
        · simp at hc0
        · exact Or.inr ⟨df, tr, h3, h4⟩
  refine ⟨hmain, ?_⟩
  intro w hfail hnotin i hi hiw
  rcases hmain i hi with hin | ⟨df, tr, hok, _⟩
  · exact hnotin i hin hiw
  · rw [hiw] at hok
    rcases hfail with hf | hf <;> rw [hf] at hok <;> cases hok

/-- C3 amended witness: in the run where `"apple"` fails, the stored item
for `"book"` is the fully enriched record. -/
theorem ensure_words_failures_add_nothing_witness :
    mkWordItem "book" (some "d") (some "t") ∈
      (ensure_words fetchAppleFails (fun l => l) [] 1).words ∧
    (mkWordItem "book" (some "d") (some "t") ∈ ([] : List WordItem) ∨
      ∃ df tr,
        fetchAppleFails (mkWordItem "book" (some "d") (some "t")).word =
          FetchResult.ok df tr ∧
        mkWordItem "book" (some "d") (some "t") =
          mkWordItem (mkWordItem "book" (some "d") (some "t")).word
            df tr) :=
  ⟨by decide,
   (ensure_words_failures_add_nothing fetchAppleFails (fun l => l) [] 1).1
     _ (by decide)⟩

/-- C4: when the enrichment call for a word succeeds overall, a missing
definition or missing translation is stored as the empty string — the
item is built and appended, never rejected: this holds for
`fetch_word_info` and for the inline enrichment step of the
`ensure_words` loop. -/
theorem enrichment_partial_failure_tolerated (fetch : String → FetchResult)
    (w : String) (df tr : Option String) (lang : String)
    (h : fetch w = FetchResult.ok df tr) :
    fetch_word_info fetch w lang = some (mkWordItem w df tr) ∧
    mkWordItem w df tr =
      { word := w, translation := tr.getD "", definition := df.getD "",
        level := "Beginner" } ∧
    ∀ (words acc : List WordItem) (needed : Nat) (rest att : List String),
      acc.length < needed →
      (words.any (fun item => item.word = w)
        || acc.any (fun item => item.word = w)) = false →
      ensure_words_go fetch words needed (w :: rest) acc att =
        ensure_words_go fetch words needed rest
          (acc ++ [mkWordItem w df tr]) (att ++ [w]) := by
  refine ⟨by simp [fetch_word_info, h], rfl, ?_⟩
  intro words acc needed rest att hlen hdup
  simp [ensure_words_go, Nat.not_le.2 hlen, hdup, h]

/-- C4 witness: a word whose definition lookup failed but whose
translation succeeded is stored with an empty definition. -/
theorem enrichment_partial_failure_tolerated_witness :
    fetch_word_info (fun _ => FetchResult.ok none (some "t")) "apple"
        "ru" = some (mkWordItem "apple" none (some "t")) ∧
    mkWordItem "apple" none (some "t") =
      { word := "apple", translation := "t", definition := "",
        level := "Beginner" } ∧
    ensure_words_go (fun _ => FetchResult.ok none (some "t")) [] 5
        ["apple"] [] [] =
      ensure_words_go (fun _ => FetchResult.ok none (some "t")) [] 5 []
        ([] ++ [mkWordItem "apple" none (some "t")]) ([] ++ ["apple"]) := by
  refine ⟨?_, ?_, ?_⟩
  · exact (enrichment_partial_failure_tolerated
      (fun _ => FetchResult.ok none (some "t")) "apple" none (some "t")
      "ru" rfl).1
  · exact (enrichment_partial_failure_tolerated
      (fun _ => FetchResult.ok none (some "t")) "apple" none (some "t")
      "ru" rfl).2.1
  · exact (enrichment_partial_failure_tolerated
      (fun _ => FetchResult.ok none (some "t")) "apple" none (some "t")
      "ru" rfl).2.2 [] [] 5 [] [] (by decide) (by decide)

/-- C6: in every corpus state the program can reach, the corpus has at
most 30 items (the seed pool size), so the default minimum of 200 is
never attained; and once every seed word is stored, a further
`ensure_words` run adds nothing, saves nothing and attempts nothing. -/
theorem corpus_bounded_by_pool (ws : List WordItem)
    (h : ReachableCorpus ws) :
    ws.length ≤ SAMPLE_WORDS_POOL.length ∧
    ws.length < 200 ∧
    ((∀ w ∈ SAMPLE_WORDS_POOL, ∃ i ∈ ws, i.word = w) →
      ∀ (fetch : String → FetchResult)
        (shuffle : List String → List String) (mt : Nat),
        (∀ l, List.Perm (shuffle l) l) →
        ensure_words fetch shuffle ws mt =
          { words := ws, saved := false, attempts := [] }) := by
  obtain ⟨hnd, hpool⟩ := reachable_corpus_good ws h
  have hlen : ws.length ≤ SAMPLE_WORDS_POOL.length := by
    have hsub : (ws.map WordItem.word) ⊆ SAMPLE_WORDS_POOL := by
      intro a ha
      rcases List.mem_map.1 ha with ⟨i, hi, rfl⟩
      exact hpool i hi
    have hle := (List.subperm_of_subset hnd hsub).length_le
    simpa using hle
  refine ⟨hlen, ?_, ?_⟩
  · have h30 : SAMPLE_WORDS_POOL.length = 30 := rfl
    omega
  · intro hfull fetch shuffle mt hsh
    exact ensure_words_saturated fetch shuffle ws mt hsh hfull

/-- C6 witness: the corpus reached by one replenishment run from the
empty store obeys the bound. -/
theorem corpus_bounded_by_pool_witness :
    (ensure_words (fun _ => FetchResult.ok (some "d") (some "t"))
        (fun l => l) [] 200).words.length ≤ SAMPLE_WORDS_POOL.length ∧
    (ensure_words (fun _ => FetchResult.ok (some "d") (some "t"))
        (fun l => l) [] 200).words.length < 200 ∧
    ((∀ w ∈ SAMPLE_WORDS_POOL, ∃ i ∈
        (ensure_words (fun _ => FetchResult.ok (some "d") (some "t"))
          (fun l => l) [] 200).words, i.word = w) →
      ∀ (fetch : String → FetchResult)
        (shuffle : List String → List String) (mt : Nat),
        (∀ l, List.Perm (shuffle l) l) →
        ensure_words fetch shuffle
            (ensure_words (fun _ => FetchResult.ok (some "d") (some "t"))
              (fun l => l) [] 200).words mt =
          { words := (ensure_words
              (fun _ => FetchResult.ok (some "d") (some "t"))
              (fun l => l) [] 200).words,
            saved := false, attempts := [] }) :=
  corpus_bounded_by_pool _
    (ReachableCorpus.step _ _ [] 200 (fun l => List.Perm.refl l)
      ReachableCorpus.init)

/-- C8: below the minimum, `ensure_words` computes
`needed = max(min_total - current, 50)`, draws its candidates by
repeating the fixed seed pool `needed / 30 + 2` times and shuffling, and
adds at most `needed` items in that run. -/
theorem ensure_words_needed_cap (fetch : String → FetchResult)
    (shuffle : List String → List String) (words : List WordItem)
    (min_total : Nat) (h : words.length < min_total) :
    (ensure_words fetch shuffle words min_total =
      (let needed := max (min_total - words.length) 50
       let candidates := shuffle (pyListMul SAMPLE_WORDS_POOL
         (needed / SAMPLE_WORDS_POOL.length + 2))
       let run := ensure_words_go fetch words needed candidates [] []
       if run.1.isEmpty then
         { words := words, saved := false, attempts := run.2 }
       else
         { words := words ++ run.1, saved := true, attempts := run.2 })) ∧
    (ensure_words fetch shuffle words min_total).words.length ≤
      words.length + max (min_total - words.length) 50 := by
  have hg : ¬ (min_total ≤ words.length) := Nat.not_le.2 h
  constructor
  · simp [ensure_words, hg]
  · rcases ensure_words_words_eq fetch shuffle words min_total with
      h1 | ⟨needed, cs, hn, _, h2⟩
    · rw [h1]
      exact Nat.le_add_right _ _
    · subst hn
      rw [h2, List.length_append]
      exact Nat.add_le_add_left
        (ensure_words_go_length_le fetch words _ cs [] [] (Nat.zero_le _)) _

/-- C8 witness: replenishing the empty corpus with minimum 1 computes
`needed = 50` and stays within it. -/
theorem ensure_words_needed_cap_witness :
    (ensure_words (fun _ => FetchResult.not_ok) (fun l => l) [] 1 =
      (let needed := max (1 - ([] : List WordItem).length) 50
       let candidates := (fun (l : List String) => l) (pyListMul SAMPLE_WORDS_POOL
         (needed / SAMPLE_WORDS_POOL.length + 2))
       let run := ensure_words_go (fun _ => FetchResult.not_ok) [] needed
         candidates [] []
       if run.1.isEmpty then
         { words := [], saved := false, attempts := run.2 }
       else
         { words := [] ++ run.1, saved := true, attempts := run.2 })) ∧
    (ensure_words (fun _ => FetchResult.not_ok) (fun l => l)
        [] 1).words.length ≤
      ([] : List WordItem).length + max (1 - ([] : List WordItem).length)
        50 :=
  ensure_words_needed_cap (fun _ => FetchResult.not_ok) (fun l => l) [] 1
    (by decide)

end Bot
